import Mathlib

/-!
Shallow embedding of `pretty_readme.py`, a generator of Markdown tables from
Beatmania IIDX Dan course dictionaries, together with proofs of the spec's
claims about it.

Python strings are embedded as Lean `String`; Python's string comparison is
code-point lexicographic, which coincides with the lexicographic order on
`String.data` (`List Char`), used here because it is kernel-decidable.
Python dicts (whose keys are unique and whose insertion order is preserved)
are embedded as association lists `List (key × value)`.
Python's `sorted` is a stable sort by a key function; every sort key used by
this program is injective on the values being sorted, so any sorting
algorithm producing a permutation that is pairwise-ordered by the key yields
exactly Python's output; we use Mathlib's `List.insertionSort`.
-/

namespace IIDX

/-- `GAME_ORDER` from the source: chronological game order used to sort table rows. -/
def GAME_ORDER : List String := [
  "7th style", "8th style", "9th style", "10th style",
  "11 IIDX RED", "12 HAPPY SKY", "13 DistorteD", "14 GOLD",
  "15 DJ TROOPERS", "16 EMPRESS", "17 SIRIUS", "18 Resort Anthem",
  "19 Lincle", "20 tricoro", "21 SPADA", "22 PENDUAL",
  "23 copula", "24 SINOBUZ", "25 CANNON BALLERS", "26 Rootage",
  "26 Rootage (offline)",
  "27 HEROIC VERSE", "28 BISTROVER", "29 CastHour", "30 RESIDENT",
  "31 EPOLIS", "32 Pinky Crush"]

/-- `DAN_ORDER` from the source: Dan order (table sections). -/
def DAN_ORDER : List String := [
  "1st Dan", "2nd Dan", "3rd Dan", "4th Dan", "5th Dan",
  "6th Dan", "7th Dan", "8th Dan", "9th Dan", "10th Dan",
  "Chuuden", "Kaiden"]

/-- Position of the first occurrence of `k` in a list of names.
Embeds lookup in the Python dict `{name: i for i, name in enumerate(...)}`
(for a duplicate-free list, first and last occurrence coincide;
`GAME_ORDER` is duplicate-free, see `GAME_ORDER_nodup`). -/
def posIn (k : String) : List String → Option Nat
  | [] => none
  | g :: rest => if g = k then some 0 else (posIn k rest).map (· + 1)

/-- `index.get(k, 10_000)` from `order_games`: chronology position of a game
name, defaulting to 10000 for names absent from `GAME_ORDER`. -/
def gameIndex (k : String) : Nat := (posIn k GAME_ORDER).getD 10000

/-- Python's `<` on strings: code-point lexicographic order, embedded on
`String.data`. -/
def pyStrLt (a b : String) : Prop := a.data < b.data

/-- Python's `<=` on strings (lexicographic), as used for tie-breaking and
alphabetical sorting: strict lexicographic order or equality. -/
def pyStrLe (a b : String) : Prop := a.data < b.data ∨ a = b

instance : DecidableRel pyStrLt := fun a b =>
  inferInstanceAs (Decidable (a.data < b.data))

instance : DecidableRel pyStrLe := fun a b =>
  inferInstanceAs (Decidable (a.data < b.data ∨ a = b))

/-- The sort-key order of `order_games`: Python compares the key tuples
`(index.get(k, 10_000), k)` lexicographically. -/
def gameLe (a b : String) : Prop :=
  gameIndex a < gameIndex b ∨ (gameIndex a = gameIndex b ∧ pyStrLe a b)

instance : DecidableRel gameLe := fun a b =>
  inferInstanceAs (Decidable
    (gameIndex a < gameIndex b ∨ (gameIndex a = gameIndex b ∧ pyStrLe a b)))

/-- `order_games` from the source: sort game keys by canonical chronology,
then any unknowns alphabetically (Python `sorted` with key
`(index.get(k, 10_000), k)`). -/
def order_games (keys : List String) : List String :=
  List.insertionSort gameLe keys

/-- A Python `dict[str, list[str]]` section of one Dan: association list from
game name to its stage list. -/
abbrev GameSection := List (String × List String)

/-- A Python `dict[str, dict[str, list[str]]]`: association list from Dan
name to its `GameSection`. -/
abbrev RankSection := List (String × GameSection)

/-- `list(section.keys())`. -/
def sectionKeys (s : GameSection) : List String := s.map (·.1)

/-- Python dict indexing `section[game]` (first matching key; dict keys are
unique). -/
def lookupStages : GameSection → String → Option (List String)
  | [], _ => none
  | (g, st) :: rest, k => if g = k then some st else lookupStages rest k

/-- `max_stage_len` from the source: max number of stage entries across games
in one Dan section (`m = 0`, then `m = max(m, len(stages))` over the values). -/
def max_stage_len (s : GameSection) : Nat :=
  s.foldl (fun m p => max m p.2.length) 0

/-- Character-level embedding of `cell.replace("|", r"\|")`: each pipe
character is replaced by a backslash followed by a pipe. -/
def escChars : List Char → List Char
  | [] => []
  | c :: rest => if c = '|' then '\\' :: '|' :: escChars rest else c :: escChars rest

/-- `cell.replace("|", r"\|")` from `render_table_for_dan`. -/
def escapeCell (s : String) : String := ⟨escChars s.data⟩

/-- Python `sep.join(parts)`. -/
def joinSep (sep : String) : List String → String
  | [] => ""
  | [x] => x
  | x :: y :: rest => x ++ sep ++ joinSep sep (y :: rest)

/-- `"| " + " | ".join(cells) + " |"`: the shape of every emitted table line. -/
def joinCells (cells : List String) : String := "| " ++ joinSep " | " cells ++ " |"

/-- `["Game"] + [f"Stage {i}" for i in range(1, cols + 1)]`. -/
def headerCells (cols : Nat) : List String :=
  "Game" :: (List.range' 1 cols).map (fun i => "Stage " ++ toString i)

/-- `row = [game] + stages + [""] * (cols - len(stages))` from
`render_table_for_dan`. Python's `*` on a negative integer yields the empty
list, embedded via `Int.toNat`. -/
def rowCells (cols : Nat) (s : GameSection) (game : String) : List String :=
  let stages := (lookupStages s game).getD []
  game :: stages ++ List.replicate ((cols : Int) - (stages.length : Int)).toNat ""

/-- The data rows of one table: one line per game in `order_games` order,
each row's cells pipe-escaped and joined. -/
def tableDataRows (cols : Nat) (s : GameSection) : List String :=
  (order_games (sectionKeys s)).map (fun game => joinCells ((rowCells cols s game).map escapeCell))

/-- `render_table_for_dan` from the source: render a single Dan section to a
Markdown table (empty string for an empty section). -/
def render_table_for_dan (dan_name : String) (sec : GameSection) : String :=
  if sec = [] then ""
  else
    let cols := max_stage_len sec
    joinSep "\n" (("### " ++ dan_name ++ "\n") ::
      joinCells (headerCells cols) ::
      joinCells (List.replicate (cols + 1) "---") ::
      tableDataRows cols sec ++ [""])

/-- Python `sorted` on strings (lexicographic). -/
def sortedStrings (l : List String) : List String := List.insertionSort pyStrLe l

/-- `list(data.keys())` at the rank level. -/
def rankKeys (d : RankSection) : List String := d.map (·.1)

/-- `known = [d for d in DAN_ORDER if d in data]` from `render_markdown`. -/
def knownDans (d : RankSection) : List String :=
  DAN_ORDER.filter (fun x => decide (x ∈ rankKeys d))

/-- `extras = sorted([d for d in data.keys() if d not in DAN_ORDER])`. -/
def extraDans (d : RankSection) : List String :=
  sortedStrings ((rankKeys d).filter (fun x => decide (x ∉ DAN_ORDER)))

/-- `known + extras`: the order in which `render_markdown` iterates Dans. -/
def danRenderOrder (d : RankSection) : List String := knownDans d ++ extraDans d

/-- Python dict indexing `data[dan_name]`. -/
def lookupRank : RankSection → String → Option GameSection
  | [], _ => none
  | (n, sec) :: rest, k => if n = k then some sec else lookupRank rest k

/-- The blocks `render_markdown` appends after the document title: per
dataset a section heading followed by one table per Dan in `danRenderOrder`. -/
def docBody (datasets : List (String × RankSection)) : List String :=
  (datasets.map (fun td => ("## " ++ td.1 ++ "\n") ::
    (danRenderOrder td.2).map (fun dan =>
      render_table_for_dan dan ((lookupRank td.2 dan).getD [])))).flatten

/-- `render_markdown` from the source: document title, then per dataset a
section heading followed by one table per Dan in `danRenderOrder`, all
joined by newlines. -/
def render_markdown (datasets : List (String × RankSection)) : String :=
  joinSep "\n" ("# Beatmania IIDX Dan Courses\n" :: docBody datasets)

/-- The fixed preamble line `main` writes before the rendered document. -/
def PREAMBLE : String := "python 2d dictionary of all AC dan courses from 7th dan - kaiden feel free to add PR with new stuff or kyu courses I am just lazy \n"

/-- The module globals relevant to `main`: which dataset names are bound, and
to what. -/
abbrev Globals := List (String × RankSection)

/-- The bound names of the globals. -/
def globalNames (g : Globals) : List String := g.map (·.1)

/-- `globals()[name]`. -/
def lookupGlobal : Globals → String → Option RankSection
  | [], _ => none
  | (n, d) :: rest, k => if n = k then some d else lookupGlobal rest k

/-- `missing = [name for name in ("dan_courses_sp", "dan_courses_dp") if name
not in globs]` from `main`. -/
def missingOf (g : Globals) : List String :=
  ["dan_courses_sp", "dan_courses_dp"].filter (fun n => decide (n ∉ globalNames g))

/-- The `SystemExit` message raised by `main` when datasets are missing
(Python's adjacent string literals concatenate). -/
def errorMessage (missing : List String) : String :=
  "Missing dictionaries: " ++ joinSep ", " missing ++
    "\nPaste your `dan_courses_sp` and `dan_courses_dp` above, or import them before running this script."

/-- `main` from the source. `.error` is the `SystemExit` raised before any
file write; `.ok` carries the full content written to `README.md`
(the preamble line followed by the rendered Markdown). -/
def pyMain (g : Globals) : Except String String :=
  if missingOf g = [] then
    .ok (PREAMBLE ++ render_markdown [
      ("Singles Play", (lookupGlobal g "dan_courses_sp").getD []),
      ("Doubles Play", (lookupGlobal g "dan_courses_dp").getD [])])
  else .error (errorMessage (missingOf g))

/-- The globals produced by a successful module load: the top-level
`from courses import dan_courses_sp, dan_courses_dp` binds both names
(whatever their values), so both are present in `globals()` when `main` runs. -/
def moduleGlobals (sp dp : RankSection) : Globals :=
  [("dan_courses_sp", sp), ("dan_courses_dp", dp)]

/-- Count of unescaped pipes in a character list: occurrences of `|` whose
immediately preceding character (tracked in `prev`) is not a backslash. -/
def countUnescapedFrom (prev : Option Char) : List Char → Nat
  | [] => 0
  | c :: rest =>
      (if c = '|' ∧ prev ≠ some '\\' then 1 else 0) + countUnescapedFrom (some c) rest

/-- Count of unescaped pipes in a string (a pipe at position 0 is unescaped). -/
def countUnescaped (s : String) : Nat := countUnescapedFrom none s.data

/-- Spec-side row shape, following the spec's words: "the game name, then its
stage titles, then empty-string padding up to `cols` columns"
(`cols - len(stages)` empty cells). To be compared with `rowCells`. -/
def specRowCells (cols : Nat) (game : String) (stages : List String) : List String :=
  game :: stages ++ List.replicate (cols - stages.length) ""

/-! ### Helper lemmas -/

lemma pyStrLe_iff (a b : String) : pyStrLe a b ↔ a ≤ b := by
  unfold pyStrLe
  rw [le_iff_lt_or_eq]
  constructor <;> rintro (h | h)
  · exact Or.inl (String.lt_iff_toList_lt.mpr h)
  · exact Or.inr h
  · exact Or.inl (String.lt_iff_toList_lt.mp h)
  · exact Or.inr h

instance : IsTrans String pyStrLe :=
  ⟨fun a b c hab hbc =>
    (pyStrLe_iff a c).mpr (le_trans ((pyStrLe_iff a b).mp hab) ((pyStrLe_iff b c).mp hbc))⟩

instance : IsTotal String pyStrLe :=
  ⟨fun a b => (le_total a b).imp (pyStrLe_iff a b).mpr (pyStrLe_iff b a).mpr⟩

lemma posIn_some_lt {k : String} : ∀ {l : List String} {i : Nat},
    posIn k l = some i → i < l.length := by
  intro l
  induction l with
  | nil => intro i h; simp [posIn] at h
  | cons g rest ih =>
    intro i h
    by_cases hg : g = k
    · simp [posIn, hg] at h
      simp only [List.length_cons]
      omega
    · simp [posIn, hg] at h
      obtain ⟨j, hj, rfl⟩ := h
      have := ih hj
      simp only [List.length_cons]
      omega

lemma posIn_eq_none_iff {k : String} : ∀ {l : List String},
    posIn k l = none ↔ k ∉ l := by
  intro l
  induction l with
  | nil => simp [posIn]
  | cons g rest ih =>
    by_cases hg : g = k
    · simp [posIn, hg]
    · simp [posIn, hg, ih, Ne.symm hg]

lemma posIn_get? {k : String} : ∀ {l : List String} {i : Nat},
    posIn k l = some i → l.get? i = some k := by
  intro l
  induction l with
  | nil => intro i h; simp [posIn] at h
  | cons g rest ih =>
    intro i h
    by_cases hg : g = k
    · simp [posIn, hg] at h
      subst h
      simp [hg]
    · simp [posIn, hg] at h
      obtain ⟨j, hj, rfl⟩ := h
      simpa using ih hj

lemma GAME_ORDER_length : GAME_ORDER.length = 27 := by decide

lemma gameIndex_lt_iff_mem (k : String) : gameIndex k < 10000 ↔ k ∈ GAME_ORDER := by
  unfold gameIndex
  cases h : posIn k GAME_ORDER with
  | none =>
    simp only [Option.getD_none]
    constructor
    · intro hlt; omega
    · intro hmem; exact absurd hmem (posIn_eq_none_iff.mp h)
  | some i =>
    simp only [Option.getD_some]
    have hi := posIn_some_lt h
    rw [GAME_ORDER_length] at hi
    constructor
    · intro _; exact List.get?_mem (posIn_get? h)
    · intro _; omega

lemma gameIndex_eq_of_not_mem {k : String} (h : k ∉ GAME_ORDER) :
    gameIndex k = 10000 := by
  unfold gameIndex
  rw [(posIn_eq_none_iff (l := GAME_ORDER)).mpr h]
  rfl

lemma gameIndex_inj {a b : String} (ha : a ∈ GAME_ORDER) (hb : b ∈ GAME_ORDER)
    (h : gameIndex a = gameIndex b) : a = b := by
  have ha' : posIn a GAME_ORDER ≠ none := fun hn => (posIn_eq_none_iff.mp hn) ha
  have hb' : posIn b GAME_ORDER ≠ none := fun hn => (posIn_eq_none_iff.mp hn) hb
  cases hpa : posIn a GAME_ORDER with
  | none => exact absurd hpa ha'
  | some i =>
    cases hpb : posIn b GAME_ORDER with
    | none => exact absurd hpb hb'
    | some j =>
      have hij : i = j := by
        unfold gameIndex at h
        rw [hpa, hpb] at h
        simpa using h
      have h1 := posIn_get? hpa
      have h2 := posIn_get? hpb
      rw [hij, h2] at h1
      exact (Option.some_injective _ h1).symm

instance : IsTrans String gameLe :=
  ⟨fun a b c hab hbc => by
    obtain hab | ⟨hab, hab'⟩ := hab <;> obtain hbc | ⟨hbc, hbc'⟩ := hbc
    · exact Or.inl (lt_trans hab hbc)
    · exact Or.inl (hbc ▸ hab)
    · exact Or.inl (hab ▸ hbc)
    · exact Or.inr ⟨hab.trans hbc, Trans.trans hab' hbc'⟩⟩

instance : IsTotal String gameLe :=
  ⟨fun a b => by
    rcases Nat.lt_trichotomy (gameIndex a) (gameIndex b) with h | h | h
    · exact Or.inl (Or.inl h)
    · rcases total_of pyStrLe a b with h' | h'
      · exact Or.inl (Or.inr ⟨h, h'⟩)
      · exact Or.inr (Or.inr ⟨h.symm, h'⟩)
    · exact Or.inr (Or.inl h)⟩

lemma foldl_max_le_init : ∀ (l : GameSection) (m : Nat),
    m ≤ l.foldl (fun m p => max m p.2.length) m := by
  intro l
  induction l with
  | nil => intro m; exact le_refl m
  | cons q rest ih =>
    intro m
    exact le_trans (Nat.le_max_left m q.2.length) (ih (max m q.2.length))

lemma foldl_max_mem_le : ∀ (l : GameSection) (m : Nat) (p : String × List String),
    p ∈ l → p.2.length ≤ l.foldl (fun m p => max m p.2.length) m := by
  intro l
  induction l with
  | nil => intro m p hp; exact absurd hp (List.not_mem_nil p)
  | cons q rest ih =>
    intro m p hp
    rcases List.mem_cons.mp hp with rfl | hp'
    · exact le_trans (Nat.le_max_right m p.2.length) (foldl_max_le_init rest _)
    · exact ih _ p hp'

lemma foldl_max_cases : ∀ (l : GameSection) (m : Nat),
    l.foldl (fun m p => max m p.2.length) m = m ∨
      ∃ p ∈ l, l.foldl (fun m p => max m p.2.length) m = p.2.length := by
  intro l
  induction l with
  | nil => intro m; exact Or.inl rfl
  | cons q rest ih =>
    intro m
    rcases ih (max m q.2.length) with h | ⟨p, hp, h⟩
    · rcases Nat.le_total q.2.length m with hle | hle
      · left
        simpa [Nat.max_eq_left hle] using h
      · right
        exact ⟨q, List.mem_cons_self q rest, by simpa [Nat.max_eq_right hle] using h⟩
    · right
      exact ⟨p, List.mem_cons_of_mem q hp, h⟩

lemma max_stage_len_ub {s : GameSection} {p : String × List String} (hp : p ∈ s) :
    p.2.length ≤ max_stage_len s :=
  foldl_max_mem_le s 0 p hp

lemma lookupStages_of_mem_keys {s : GameSection} {g : String} :
    g ∈ sectionKeys s → ∃ st, lookupStages s g = some st ∧ (g, st) ∈ s := by
  induction s with
  | nil => intro h; exact absurd h (List.not_mem_nil g)
  | cons q rest ih =>
    intro h
    by_cases hq : q.1 = g
    · refine ⟨q.2, ?_, ?_⟩
      · show lookupStages ((q.1, q.2) :: rest) g = some q.2
        simp [lookupStages, hq]
      · subst hq
        exact List.mem_cons_self _ _
    · have h' : g ∈ sectionKeys rest := by
        rcases List.mem_cons.mp h with h0 | h0
        · exact absurd h0.symm hq
        · exact h0
      obtain ⟨st, hst, hmem⟩ := ih h'
      refine ⟨st, ?_, List.mem_cons_of_mem q hmem⟩
      show lookupStages ((q.1, q.2) :: rest) g = some st
      simp [lookupStages, hq, hst]

/-- The character preceding the suffix that follows `xs`, given that `prev`
precedes `xs` (state threaded by `countUnescapedFrom`). -/
def lastCh (prev : Option Char) : List Char → Option Char
  | [] => prev
  | c :: rest => lastCh (some c) rest

lemma lastCh_append : ∀ (xs : List Char) (prev : Option Char) (ys : List Char),
    lastCh prev (xs ++ ys) = lastCh (lastCh prev xs) ys := by
  intro xs
  induction xs with
  | nil => intro prev ys; rfl
  | cons c rest ih => intro prev ys; exact ih (some c) ys

lemma countUnescapedFrom_append : ∀ (xs : List Char) (prev : Option Char) (ys : List Char),
    countUnescapedFrom prev (xs ++ ys) =
      countUnescapedFrom prev xs + countUnescapedFrom (lastCh prev xs) ys := by
  intro xs
  induction xs with
  | nil => intro prev ys; simp [countUnescapedFrom, lastCh]
  | cons c rest ih =>
    intro prev ys
    rw [List.cons_append]
    show (if c = '|' ∧ prev ≠ some '\\' then 1 else 0) + countUnescapedFrom (some c) (rest ++ ys) = _
    rw [ih (some c) ys]
    show _ = (if c = '|' ∧ prev ≠ some '\\' then 1 else 0) + countUnescapedFrom (some c) rest +
      countUnescapedFrom (lastCh (some c) rest) ys
    omega

lemma escChars_count_zero : ∀ (cs : List Char) (prev : Option Char),
    countUnescapedFrom prev (escChars cs) = 0 := by
  intro cs
  induction cs with
  | nil => intro prev; rfl
  | cons c rest ih =>
    intro prev
    by_cases hc : c = '|'
    · simp [escChars, hc, countUnescapedFrom, ih]
    · simp [escChars, hc, countUnescapedFrom, ih]

lemma escChars_count_pipe : ∀ cs : List Char, (escChars cs).count '|' = cs.count '|' := by
  intro cs
  induction cs with
  | nil => rfl
  | cons c rest ih =>
    by_cases hc : c = '|'
    · simp [escChars, hc, List.count_cons, ih]
    · simp [escChars, hc, List.count_cons, ih]

lemma joinSep_escaped_count :
    ∀ (l : List String), l ≠ [] → (∀ x ∈ l, ∀ pr, countUnescapedFrom pr x.data = 0) →
      ∀ pr, countUnescapedFrom pr ((joinSep " | " l).data) = l.length - 1 := by
  intro l
  induction l with
  | nil => intro h; exact absurd rfl h
  | cons x rest ih =>
    intro _ hall pr
    match rest with
    | [] => simpa [joinSep] using hall x (List.mem_cons_self _ _) pr
    | y :: rest' =>
      have hseg : ∀ q, countUnescapedFrom q ((" | " : String).data) = 1 := by
        intro q
        show (if ' ' = '|' ∧ q ≠ some '\\' then 1 else 0) +
          countUnescapedFrom (some ' ') ['|', ' '] = 1
        rw [if_neg (by simp)]
        decide
      have hlast : ∀ q, lastCh q ((" | " : String).data) = some ' ' := fun q => rfl
      show countUnescapedFrom pr ((x ++ " | " ++ joinSep " | " (y :: rest')).data) = _
      rw [String.data_append, String.data_append, countUnescapedFrom_append,
        countUnescapedFrom_append, lastCh_append]
      rw [hall x (List.mem_cons_self _ _) pr]
      rw [hseg, hlast]
      rw [ih (by simp) (fun z hz => hall z (List.mem_cons_of_mem x hz)) (some ' ')]
      simp only [List.length_cons]
      omega

/-! ### Claim theorems -/

/-- C1: `order_games` orders names present in `GAME_ORDER` by their table
position (strictly, for distinct names), places every absent name after all
present names, and orders absent names lexicographically among themselves. -/
theorem order_games_chronology (keys : List String) :
    (order_games keys).Pairwise (fun a b =>
      (a ∈ GAME_ORDER → b ∈ GAME_ORDER → gameIndex a ≤ gameIndex b) ∧
      (a ∈ GAME_ORDER → b ∈ GAME_ORDER → a ≠ b → gameIndex a < gameIndex b) ∧
      (b ∈ GAME_ORDER → a ∈ GAME_ORDER) ∧
      (a ∉ GAME_ORDER → b ∉ GAME_ORDER → pyStrLe a b)) := by
  have h := List.sorted_insertionSort gameLe keys
  refine List.Pairwise.imp ?_ h
  intro a b hab
  refine ⟨?_, ?_, ?_, ?_⟩
  · intro _ _
    rcases hab with h' | ⟨h', _⟩
    · exact le_of_lt h'
    · exact le_of_eq h'
  · intro ha hb hne
    rcases hab with h' | ⟨h', _⟩
    · exact h'
    · exact absurd (gameIndex_inj ha hb h') hne
  · intro hb
    have hblt : gameIndex b < 10000 := (gameIndex_lt_iff_mem b).mpr hb
    have halt : gameIndex a < 10000 := by
      rcases hab with h' | ⟨h', _⟩
      · omega
      · omega
    exact (gameIndex_lt_iff_mem a).mp halt
  · intro ha hb
    have ha' := gameIndex_eq_of_not_mem ha
    have hb' := gameIndex_eq_of_not_mem hb
    rcases hab with h' | ⟨_, h'⟩
    · rw [ha', hb'] at h'
      omega
    · exact h'

/-- C8: `order_games` returns a permutation of its input: same length, and
every name occurs exactly as often as in the input (nothing dropped, nothing
duplicated). -/
theorem order_games_permutation (keys : List String) :
    (order_games keys).Perm keys ∧
    (order_games keys).length = keys.length ∧
    ∀ k, (order_games keys).count k = keys.count k := by
  have hp := List.perm_insertionSort gameLe keys
  exact ⟨hp, hp.length_eq, fun k => hp.count_eq k⟩

/-- C3: `max_stage_len` is the maximum StageList length over the entries of a
section: it bounds every entry's length, is attained (or the section
contributes nothing and it is 0), is 0 on the empty section, and is 0 when
every StageList is empty. -/
theorem max_stage_len_is_max (s : GameSection) :
    (∀ p ∈ s, p.2.length ≤ max_stage_len s) ∧
    (max_stage_len s = 0 ∨ ∃ p ∈ s, p.2.length = max_stage_len s) ∧
    (s = [] → max_stage_len s = 0) ∧
    ((∀ p ∈ s, p.2.length = 0) → max_stage_len s = 0) := by
  refine ⟨fun p hp => max_stage_len_ub hp, ?_, ?_, ?_⟩
  · rcases foldl_max_cases s 0 with h | ⟨p, hp, h⟩
    · exact Or.inl h
    · exact Or.inr ⟨p, hp, h.symm⟩
  · rintro rfl
    rfl
  · intro hall
    rcases foldl_max_cases s 0 with h | ⟨p, hp, h⟩
    · exact h
    · exact h.trans (hall p hp)

/-- C4: escaping a cell leaves no unescaped pipe (every pipe that occurs in
the escaped text is immediately preceded by a backslash), preserves the
number of pipes of the cell text, and in a full emitted table line the
unescaped pipes are exactly the `cells + 1` column delimiters the renderer
adds. -/
theorem cell_pipes_escaped (c : String) (cells : List String) (h : cells ≠ []) :
    countUnescaped (escapeCell c) = 0 ∧
    (escapeCell c).data.count '|' = c.data.count '|' ∧
    countUnescaped (joinCells (cells.map escapeCell)) = cells.length + 1 := by
  refine ⟨escChars_count_zero c.data none, escChars_count_pipe c.data, ?_⟩
  show countUnescapedFrom none
    ((("| " : String) ++ joinSep " | " (cells.map escapeCell) ++ " |").data) = _
  rw [String.data_append, String.data_append, countUnescapedFrom_append,
    countUnescapedFrom_append, lastCh_append]
  have h1 : countUnescapedFrom none (("| " : String).data) = 1 := by decide
  have h2 : lastCh none (("| " : String).data) = some ' ' := rfl
  have hcells : ∀ x ∈ cells.map escapeCell, ∀ pr, countUnescapedFrom pr x.data = 0 := by
    intro x hx pr
    obtain ⟨y, _, rfl⟩ := List.mem_map.mp hx
    exact escChars_count_zero y.data pr
  have h3 : ∀ q, countUnescapedFrom q ((" |" : String).data) = 1 := by
    intro q
    show (if ' ' = '|' ∧ q ≠ some '\\' then 1 else 0) +
      countUnescapedFrom (some ' ') ['|'] = 1
    rw [if_neg (by simp)]
    decide
  rw [h1, h2, joinSep_escaped_count (cells.map escapeCell) (by simpa using h)
    hcells (some ' '), h3]
  have hlen : 0 < cells.length := List.length_pos.mpr h
  simp only [List.length_map]
  omega

/-- C10: in a non-empty section with `cols = max_stage_len`, the header cell
list, the separator cell list, and every data row's cell list all have
exactly `cols + 1` cells, and the padding count `cols - len(stages)` is
non-negative for every rendered row. -/
theorem table_line_cell_counts (s : GameSection) (h : s ≠ []) :
    (headerCells (max_stage_len s)).length = max_stage_len s + 1 ∧
    (List.replicate (max_stage_len s + 1) ("---" : String)).length = max_stage_len s + 1 ∧
    ∀ g ∈ order_games (sectionKeys s),
      (rowCells (max_stage_len s) s g).length = max_stage_len s + 1 ∧
      0 ≤ (max_stage_len s : Int) - (((lookupStages s g).getD []).length : Int) := by
  refine ⟨?_, List.length_replicate _ _, ?_⟩
  · simp [headerCells]
  · intro g hg
    have hg' : g ∈ sectionKeys s := by
      rw [order_games, List.mem_insertionSort] at hg
      exact hg
    obtain ⟨st, hst, hmem⟩ := lookupStages_of_mem_keys hg'
    have hle : st.length ≤ max_stage_len s := max_stage_len_ub hmem
    constructor
    · simp only [rowCells, hst, Option.getD_some, List.length_cons, List.length_append,
        List.length_replicate, Int.toNat_sub]
      omega
    · rw [hst]
      simp only [Option.getD_some]
      omega

/-- C2: a non-empty section renders as the heading, the header line, the
separator line, one data line per game-edition key in `order_games` order
(each row being the game name, its stages, then `cols - len(stages)` empty
cells), and a trailing blank; in particular the spec's 1st-Dan example
renders to the exact expected two-row table, with the 7th-style row's
Stage 2 cell empty. -/
theorem render_table_structure (d : String) (s : GameSection) (h : s ≠ []) :
    render_table_for_dan d s =
      joinSep "\n" (("### " ++ d ++ "\n") ::
        joinCells (headerCells (max_stage_len s)) ::
        joinCells (List.replicate (max_stage_len s + 1) "---") ::
        tableDataRows (max_stage_len s) s ++ [""]) ∧
    (tableDataRows (max_stage_len s) s).length = s.length ∧
    (∀ g ∈ order_games (sectionKeys s),
      rowCells (max_stage_len s) s g =
        specRowCells (max_stage_len s) g ((lookupStages s g).getD [])) ∧
    render_table_for_dan "1st Dan"
        [("7th style", ["SONIC BOOM"]), ("8th style", ["SOUND CROSS", "V"])] =
      "### 1st Dan\n\n| Game | Stage 1 | Stage 2 |\n| --- | --- | --- |\n| 7th style | SONIC BOOM |  |\n| 8th style | SOUND CROSS | V |\n" := by
  refine ⟨?_, ?_, ?_, by decide⟩
  · simp [render_table_for_dan, h]
  · simp [tableDataRows, order_games, List.length_insertionSort, sectionKeys]
  · intro g _
    simp [rowCells, specRowCells, Int.toNat_sub]

/-- C5: `render_markdown` emits, for each dataset, its Dan tables in
`danRenderOrder`, which consists of the ranks listed in `DAN_ORDER` first —
a subsequence of `DAN_ORDER`, so in its fixed order, containing exactly the
listed ranks present in the section — followed by the unlisted ranks of the
section sorted lexicographically; together they cover exactly the section's
rank keys. -/
theorem render_markdown_rank_order (datasets : List (String × RankSection)) (d : RankSection) :
    render_markdown datasets =
      joinSep "\n" ("# Beatmania IIDX Dan Courses\n" ::
        (datasets.map (fun td => ("## " ++ td.1 ++ "\n") ::
          (danRenderOrder td.2).map (fun dan =>
            render_table_for_dan dan ((lookupRank td.2 dan).getD [])))).flatten) ∧
    danRenderOrder d = knownDans d ++ extraDans d ∧
    (knownDans d).Sublist DAN_ORDER ∧
    (∀ x, x ∈ knownDans d ↔ x ∈ DAN_ORDER ∧ x ∈ rankKeys d) ∧
    (extraDans d).Pairwise pyStrLe ∧
    (∀ x, x ∈ extraDans d ↔ x ∈ rankKeys d ∧ x ∉ DAN_ORDER) ∧
    (∀ x, x ∈ danRenderOrder d ↔ x ∈ rankKeys d) := by
  have hknown : ∀ x, x ∈ knownDans d ↔ x ∈ DAN_ORDER ∧ x ∈ rankKeys d := by
    intro x
    simp [knownDans]
  have hextra : ∀ x, x ∈ extraDans d ↔ x ∈ rankKeys d ∧ x ∉ DAN_ORDER := by
    intro x
    simp [extraDans, sortedStrings, List.mem_insertionSort]
  refine ⟨rfl, rfl, List.filter_sublist _, hknown,
    List.sorted_insertionSort pyStrLe _, hextra, ?_⟩
  intro x
  unfold danRenderOrder
  rw [List.mem_append, hknown x, hextra x]
  by_cases hx : x ∈ DAN_ORDER <;> simp [hx]

lemma mem_joinSep_substring : ∀ (l : List String) (sep n : String), n ∈ l →
    n.data <:+: (joinSep sep l).data := by
  intro l
  induction l with
  | nil => intro sep n hn; exact absurd hn (List.not_mem_nil n)
  | cons x rest ih =>
    intro sep n hn
    match rest with
    | [] =>
      rcases List.mem_cons.mp hn with rfl | h0
      · exact List.infix_refl _
      · exact absurd h0 (List.not_mem_nil n)
    | y :: rest' =>
      show n.data <:+: (x ++ sep ++ joinSep sep (y :: rest')).data
      rw [String.data_append, String.data_append]
      rcases List.mem_cons.mp hn with rfl | h0
      · exact ((List.prefix_append n.data _).trans
          (by rw [List.append_assoc])).isInfix
      · exact (ih sep n h0).trans (List.suffix_append _ _).isInfix

/-- C6: when a required dataset name is missing from the globals, `main`
raises the `SystemExit` error (whose text contains every missing dataset
name) and produces no output-file content. -/
theorem main_missing_datasets (g : Globals) (h : missingOf g ≠ []) :
    pyMain g = .error (errorMessage (missingOf g)) ∧
    (∀ content, pyMain g ≠ .ok content) ∧
    ∀ n ∈ missingOf g, n.data <:+: (errorMessage (missingOf g)).data := by
  have hmain : pyMain g = .error (errorMessage (missingOf g)) := by
    unfold pyMain
    rw [if_neg h]
  refine ⟨hmain, ?_, ?_⟩
  · intro content hc
    rw [hmain] at hc
    exact Except.noConfusion hc
  · intro n hn
    unfold errorMessage
    rw [String.data_append, String.data_append]
    exact (mem_joinSep_substring (missingOf g) ", " n hn).trans
      (List.infix_append _ _ _)

/-- C7: with both datasets bound and non-empty, `main` succeeds and the
output-file content starts with the fixed preamble line immediately followed
by the document title line `# Beatmania IIDX Dan Courses`. -/
theorem main_success_prefix (sp dp : RankSection) (h1 : sp ≠ []) (h2 : dp ≠ []) :
    pyMain [("dan_courses_sp", sp), ("dan_courses_dp", dp)] =
      .ok (PREAMBLE ++ ("# Beatmania IIDX Dan Courses\n" ++ ("\n" ++
        joinSep "\n" ("## Singles Play\n" ::
          ((danRenderOrder sp).map (fun dan =>
              render_table_for_dan dan ((lookupRank sp dan).getD [])) ++
            "## Doubles Play\n" ::
              (danRenderOrder dp).map (fun dan =>
                render_table_for_dan dan ((lookupRank dp dan).getD []))))))) := by
  have hmiss : missingOf [("dan_courses_sp", sp), ("dan_courses_dp", dp)] = [] := rfl
  have hdoc : docBody [("Singles Play", sp), ("Doubles Play", dp)] =
      "## Singles Play\n" ::
        ((danRenderOrder sp).map (fun dan =>
            render_table_for_dan dan ((lookupRank sp dan).getD [])) ++
          "## Doubles Play\n" ::
            (danRenderOrder dp).map (fun dan =>
              render_table_for_dan dan ((lookupRank dp dan).getD []))) := by
    simp [docBody]
  unfold pyMain
  rw [if_pos hmiss]
  show Except.ok (PREAMBLE ++ render_markdown
    [("Singles Play", sp), ("Doubles Play", dp)]) = _
  unfold render_markdown
  rw [hdoc]
  show Except.ok (PREAMBLE ++ ("# Beatmania IIDX Dan Courses\n" ++ "\n" ++
    joinSep "\n" ("## Singles Play\n" :: _))) = _
  rw [String.append_assoc]

/-- C9: after a successful module load the top-level import has bound both
`dan_courses_sp` and `dan_courses_dp`, so `main` computes an empty missing
list, never reaches its `SystemExit` branch, and succeeds. -/
theorem module_import_binds (sp dp : RankSection) :
    missingOf (moduleGlobals sp dp) = [] ∧
    pyMain (moduleGlobals sp dp) =
      .ok (PREAMBLE ++ render_markdown [("Singles Play", sp), ("Doubles Play", dp)]) ∧
    ∀ e, pyMain (moduleGlobals sp dp) ≠ .error e := by
  have h2 : pyMain (moduleGlobals sp dp) =
      .ok (PREAMBLE ++ render_markdown [("Singles Play", sp), ("Doubles Play", dp)]) := rfl
  refine ⟨rfl, h2, fun e he => ?_⟩
  rw [h2] at he
  exact Except.noConfusion he

/-! ### Witnesses -/

/-- Witness for C2 at the spec's concrete example section. -/
theorem render_table_structure_witness :
    ([("7th style", ["SONIC BOOM"]), ("8th style", ["SOUND CROSS", "V"])] : GameSection) ≠ [] ∧
    render_table_for_dan "1st Dan"
        [("7th style", ["SONIC BOOM"]), ("8th style", ["SOUND CROSS", "V"])] =
      "### 1st Dan\n\n| Game | Stage 1 | Stage 2 |\n| --- | --- | --- |\n| 7th style | SONIC BOOM |  |\n| 8th style | SOUND CROSS | V |\n" :=
  ⟨by decide, (render_table_structure "1st Dan"
    [("7th style", ["SONIC BOOM"]), ("8th style", ["SOUND CROSS", "V"])] (by decide)).2.2.2⟩

/-- Witness for C4 on a cell containing a pipe and a one-cell row. -/
theorem cell_pipes_escaped_witness :
    (["SONIC|BOOM"] : List String) ≠ [] ∧
    countUnescaped (escapeCell "a|b") = 0 ∧
    countUnescaped (joinCells ((["SONIC|BOOM"] : List String).map escapeCell)) =
      (["SONIC|BOOM"] : List String).length + 1 :=
  ⟨by decide, (cell_pipes_escaped "a|b" ["SONIC|BOOM"] (by decide)).1,
    (cell_pipes_escaped "a|b" ["SONIC|BOOM"] (by decide)).2.2⟩

/-- Witness for C6 on empty globals, where both datasets are missing. -/
theorem main_missing_datasets_witness :
    missingOf [] ≠ [] ∧ pyMain [] = .error (errorMessage (missingOf [])) :=
  ⟨by decide, (main_missing_datasets [] (by decide)).1⟩

/-- Witness for C7 on minimal non-empty datasets. -/
theorem main_success_prefix_witness :
    pyMain [("dan_courses_sp", [("1st Dan", [("7th style", ["A"])])]),
            ("dan_courses_dp", [("1st Dan", [("7th style", ["B"])])])] =
      Except.ok (PREAMBLE ++ ("# Beatmania IIDX Dan Courses\n" ++ ("\n" ++
        joinSep "\n" ("## Singles Play\n" ::
          ((danRenderOrder [("1st Dan", [("7th style", ["A"])])]).map (fun dan =>
              render_table_for_dan dan
                ((lookupRank [("1st Dan", [("7th style", ["A"])])] dan).getD [])) ++
            "## Doubles Play\n" ::
              (danRenderOrder [("1st Dan", [("7th style", ["B"])])]).map (fun dan =>
                render_table_for_dan dan
                  ((lookupRank [("1st Dan", [("7th style", ["B"])])] dan).getD []))))))) :=
  main_success_prefix _ _ (by decide) (by decide)

/-- Witness for C10 on a concrete one-game section. -/
theorem table_line_cell_counts_witness :
    ([("7th style", ["SONIC BOOM"])] : GameSection) ≠ [] ∧
    (headerCells (max_stage_len [("7th style", ["SONIC BOOM"])])).length =
      max_stage_len [("7th style", ["SONIC BOOM"])] + 1 :=
  ⟨by decide, (table_line_cell_counts [("7th style", ["SONIC BOOM"])] (by decide)).1⟩

end IIDX
